import Mathlib

/-!
Verification development for the i18n-ai repository (TypeScript).

Shallow embedding conventions:
* JavaScript strings are modelled as `List Char`; `strL` converts a Lean
  string literal to that representation.
* JavaScript regular-expression tests from the source are modelled as
  executable boolean predicates on `List Char`, one per regex literal.
* `String.prototype.normalize('NFD')` and `String.prototype.toLowerCase()`
  are JavaScript runtime primitives, not code of this repository; every
  definition that uses them is parametrised by functions
  `nfd : List Char → List Char` and `lower : Char → Char`, and every theorem
  quantifies over them, so the results hold for any implementation of the
  two primitives.
* Fallible code returns `Except JsError α`; thrown JavaScript errors are
  modelled by the `JsError` inductive.
-/

namespace I18nAi

def strL (s : String) : List Char := s.toList

/-- The JavaScript `\s` character class (whitespace), as used by
`String.prototype.trim` and the `/^[\s\n\r]*$/` regex of the classifier. -/
def jsWhitespace (c : Char) : Bool :=
  c = ' ' || c = '\t' || c = '\n' || c = '\r' || c = '\x0b' || c = '\x0c' ||
  c.toNat = 0xa0 || c.toNat = 0x1680 ||
  (0x2000 ≤ c.toNat && c.toNat ≤ 0x200a) ||
  c.toNat = 0x2028 || c.toNat = 0x2029 || c.toNat = 0x202f ||
  c.toNat = 0x205f || c.toNat = 0x3000 || c.toNat = 0xfeff

/-- `String.prototype.trim()`. -/
def jsTrim (s : List Char) : List Char :=
  ((s.dropWhile jsWhitespace).reverse.dropWhile jsWhitespace).reverse

/-- Regex `/^[\s\n\r]*$/` — the string consists only of whitespace. -/
def onlyWhitespaceShape (s : List Char) : Bool := s.all jsWhitespace

def identStartChar (c : Char) : Bool :=
  ('a' ≤ c && c ≤ 'z') || ('A' ≤ c && c ≤ 'Z') || c = '_' || c = '$'

def identRestChar (c : Char) : Bool := identStartChar c || ('0' ≤ c && c ≤ '9')

/-- Regex `/^[a-zA-Z_$][a-zA-Z0-9_$]*$/` — bare identifier shape. -/
def identifierShape : List Char → Bool
  | [] => false
  | c :: rest => identStartChar c && rest.all identRestChar

/-- Regex `/^[./\\]+$/` — relative-path-only shape. -/
def relPathShape (s : List Char) : Bool :=
  !s.isEmpty && s.all (fun c => c = '.' || c = '/' || c = '\\')

def digitChar (c : Char) : Bool := '0' ≤ c && c ≤ '9'

/-- Regex `/^\d+(\.\d+)?$/` — pure integer or decimal numeral. -/
def numeralShape (s : List Char) : Bool :=
  let ds := s.takeWhile digitChar
  let rest := s.dropWhile digitChar
  !ds.isEmpty &&
    (rest.isEmpty ||
      match rest with
      | '.' :: frac => !frac.isEmpty && frac.all digitChar
      | _ => false)

def hexDigitChar (c : Char) : Bool :=
  digitChar c || ('a' ≤ c && c ≤ 'f') || ('A' ≤ c && c ≤ 'F')

/-- Regex `/^#[0-9a-fA-F]{3,8}$/` — hex color shape. -/
def hexColorShape : List Char → Bool
  | '#' :: rest => rest.all hexDigitChar && 3 ≤ rest.length && rest.length ≤ 8
  | _ => false

/-- `String.prototype.includes(sub)` — substring containment. -/
def containsSub (sub : List Char) : List Char → Bool
  | [] => sub.isEmpty
  | c :: rest => sub.isPrefixOf (c :: rest) || containsSub sub rest

/-- `shouldExtractString` from `src/utils/translation-utils.ts` (the verbatim
duplicate `ReactParser.shouldExtract` in the parser is `shouldExtract` below).
Each guard mirrors one early `return false` of the source. -/
def shouldExtractString (text : List Char) : Bool :=
  if text.isEmpty = true ∨ text.length < 2 then false
  else if onlyWhitespaceShape text = true then false
  else if identifierShape text = true then false
  else if relPathShape text = true then false
  else if numeralShape text = true then false
  else if hexColorShape text = true then false
  else if containsSub (strL "className") text = true ∨ containsSub (strL "onClick") text = true then
    false
  else true

/-- `ReactParser.shouldExtract` from `src/parsers/react-parser.ts`; the body is
a line-for-line duplicate of `shouldExtractString`. -/
def shouldExtract (text : List Char) : Bool :=
  if text.isEmpty = true ∨ text.length < 2 then false
  else if onlyWhitespaceShape text = true then false
  else if identifierShape text = true then false
  else if relPathShape text = true then false
  else if numeralShape text = true then false
  else if hexColorShape text = true then false
  else if containsSub (strL "className") text = true ∨ containsSub (strL "onClick") text = true then
    false
  else true

/-! ## Key derivation (`generateTranslationKey`, `FileScanner.generateKey`) -/

/-- The regex replace `/[̀-ͯ]/g → ''` (strip combining accents). -/
def stripDiacritics (s : List Char) : List Char :=
  s.filter (fun c => !(0x300 ≤ c.toNat && c.toNat ≤ 0x36f))

def keyChar (c : Char) : Bool := ('a' ≤ c && c ≤ 'z') || ('0' ≤ c && c ≤ '9')

/-- Worker for the regex replace `/[^a-z0-9]+/g → '_'`: each maximal run of
characters outside `[a-z0-9]` becomes a single underscore. The flag records
whether the previous character already belonged to such a run. -/
def collapseGo : Bool → List Char → List Char
  | _, [] => []
  | prevRun, c :: rest =>
    if keyChar c then c :: collapseGo false rest
    else if prevRun then collapseGo true rest
    else '_' :: collapseGo true rest

def collapseNonAlnum (s : List Char) : List Char := collapseGo false s

/-- The regex replace `/^_+|_+$/g → ''` (strip leading/trailing underscores). -/
def stripEdgeUnderscores (s : List Char) : List Char :=
  ((s.dropWhile (fun c => c = '_')).reverse.dropWhile (fun c => c = '_')).reverse

/-- `generateTranslationKey` from `src/utils/translation-utils.ts`:
NFD-normalize, strip accents, lowercase, collapse non-`[a-z0-9]` runs to `_`,
strip edge underscores, truncate to `maxLength` (the source defaults
`maxLength` to 50; callers of the default are modelled by passing 50). -/
def generateTranslationKey (nfd : List Char → List Char) (lower : Char → Char)
    (text : List Char) (maxLength : Nat) : List Char :=
  (stripEdgeUnderscores (collapseNonAlnum (((stripDiacritics (nfd text)).map lower)))).take
    maxLength

/-- `FileScanner.generateKey` from `src/scanner.ts` — an inline copy of the
same normalization chain with the truncation length written as the literal
50. -/
def scannerGenerateKey (nfd : List Char → List Char) (lower : Char → Char)
    (text : List Char) : List Char :=
  (stripEdgeUnderscores (collapseNonAlnum (((stripDiacritics (nfd text)).map lower)))).take 50

/-- `TranslationFileGenerator.generateKey` from `src/translator.ts` — calls
`generateTranslationKey` with the default `maxLength = 50`. -/
def generatorGenerateKey (nfd : List Char → List Char) (lower : Char → Char)
    (text : List Char) : List Char :=
  generateTranslationKey nfd lower text 50

def headIsUnderscore (s : List Char) : Bool :=
  match s.head? with
  | some c => c == '_'
  | none => false

/-! ## Errors (`TranslationError`, `APIError` from `src/translator.ts`) -/

/-- JavaScript errors thrown by the translator module. `apiError` is the
`APIError` subclass (message, provider, optional status code, optional
original error); `translationError` is the plain `TranslationError`;
`typeError` models the runtime `TypeError` thrown by a property access on
`undefined`; `genericError` models a plain `Error`. -/
inductive JsError where
  | apiError (message provider : List Char) (statusCode : Option Nat) (original : Option JsError)
  | translationError (message provider : List Char) (original : Option JsError)
  | typeError (message : List Char)
  | genericError (message : List Char)

/-- `error.message`. -/
def errMessage : JsError → List Char
  | .apiError m _ _ _ => m
  | .translationError m _ _ => m
  | .typeError m => m
  | .genericError m => m

/-- The `provider` tag of a `TranslationError`/`APIError`. -/
def errProvider : JsError → Option (List Char)
  | .apiError _ p _ _ => some p
  | .translationError _ p _ => some p
  | .typeError _ => none
  | .genericError _ => none

/-- The numeric HTTP status carried by the error itself or by the chain of
`originalError`s wrapped inside it. -/
def statusInChain : JsError → Option Nat
  | .apiError _ _ st _ => st
  | .translationError _ _ (some e) => statusInChain e
  | .translationError _ _ none => none
  | .typeError _ => none
  | .genericError _ => none

def isErrorResult {α : Type} : Except JsError α → Bool
  | .error _ => true
  | .ok _ => false

/-! ## HTTP layer (`makeHTTPRequest` from `src/translator.ts`) -/

/-- A `fetch` `Response` whose JSON body has already been parsed to `β`
(`response.json()` is modelled as part of the fetch outcome). -/
structure HTTPResponse (β : Type) where
  ok : Bool
  status : Nat
  statusText : List Char
  body : β

/-- `makeHTTPRequest`: `fetchResult` is the outcome of `fetch` + `json()`
(an `Except.error` is a rejected promise). A non-OK response throws an
`APIError` carrying the status code; any other failure is wrapped in a
`TranslationError` tagged "Network request failed"; an `APIError` passes
through the catch unchanged. -/
def makeHTTPRequest {β : Type} (providerName : List Char)
    (fetchResult : Except JsError (HTTPResponse β)) : Except JsError β :=
  match fetchResult with
  | .ok response =>
    if response.ok = false then
      .error (.apiError
        (strL "HTTP " ++ Nat.toDigits 10 response.status ++ strL ": " ++ response.statusText)
        providerName (some response.status) none)
    else .ok response.body
  | .error e =>
    match e with
    | .apiError .. => .error e
    | _ =>
      .error (.translationError (strL "Network request failed: " ++ errMessage e)
        providerName (some e))

/-! ## Provider response bodies -/

structure OpenAIMessage where
  content : Option (List Char)

structure OpenAIChoice where
  message : Option OpenAIMessage

/-- The parsed JSON body of an OpenAI-style response. `choices = none` models
a body where `data.choices` is absent or not an array
(`Array.isArray(data.choices)` is `false`). -/
structure OpenAIBody where
  choices : Option (List OpenAIChoice)

structure DeepLItem where
  text : Option (List Char)

/-- The parsed JSON body of a DeepL-style response. `translations = none`
models a body missing the `translations` array (the cast
`await response.json() as T` is unchecked in the source). -/
structure DeepLBody where
  translations : Option (List DeepLItem)

/-- `OpenAITranslator.extractTranslationFromResponse`:
`data.choices[0]?.message?.content?.trim()` guarded by
`Array.isArray(data.choices) && data.choices.length > 0`. -/
def extractTranslationFromResponse (data : OpenAIBody) : Option (List Char) :=
  match data.choices with
  | some (c :: _) => (c.message.bind OpenAIMessage.content).map jsTrim
  | _ => none

/-- JavaScript `x || y` on a possibly-undefined string: `undefined` and the
empty string are falsy. -/
def jsOrStr (o : Option (List Char)) (b : List Char) : List Char :=
  match o with
  | some s => if s.isEmpty then b else s
  | none => b

def openAIName : List Char := strL "OpenAI"
def deepLName : List Char := strL "DeepL"

/-- `OpenAITranslator.translate`: on HTTP success, return the extracted
translation or (`||`) the original text; on any error, wrap it in a
provider-tagged `TranslationError` and rethrow. The single-item request
itself is represented by its outcome `fetchRes`. -/
def openAITranslate (fetchRes : Except JsError (HTTPResponse OpenAIBody))
    (text : List Char) : Except JsError (List Char) :=
  match makeHTTPRequest openAIName fetchRes with
  | .ok data => .ok (jsOrStr (extractTranslationFromResponse data) text)
  | .error e =>
    .error (.translationError (strL "Translation failed: " ++ errMessage e) openAIName (some e))

def undefinedReadMessage : List Char :=
  strL "Cannot read properties of undefined (reading '0')"

/-- `DeepLTranslator.translate`: `data.translations[0]?.text || text`.
When the body has no `translations` field, the index access
`data.translations[0]` throws a `TypeError`, which the surrounding catch
wraps in a provider-tagged `TranslationError`. -/
def deepLTranslate (fetchRes : Except JsError (HTTPResponse DeepLBody))
    (text : List Char) : Except JsError (List Char) :=
  match makeHTTPRequest deepLName fetchRes with
  | .ok data =>
    match data.translations with
    | none =>
      .error (.translationError (strL "Translation failed: " ++ undefinedReadMessage)
        deepLName (some (.typeError undefinedReadMessage)))
    | some items => .ok (jsOrStr (items.head?.bind DeepLItem.text) text)
  | .error e =>
    .error (.translationError (strL "Translation failed: " ++ errMessage e) deepLName (some e))

/-! ## Retry with backoff (`retryWithBackoff` from translation-utils) -/

/-- `TranslationConfig` (`src/types/translation.ts`): all fields optional. -/
structure TranslationConfig where
  maxRetries : Option Nat
  retryDelay : Option Nat
  batchSize : Option Nat
  timeout : Option Nat

structure ResolvedConfig where
  maxRetries : Nat
  retryDelay : Nat
  batchSize : Nat
  timeout : Nat

/-- The config merge in the `BaseTranslator` constructor:
`{maxRetries: 3, retryDelay: 1000, batchSize: 10, timeout: 30000, ...config}`. -/
def mergeConfig (config : TranslationConfig) : ResolvedConfig :=
  ⟨config.maxRetries.getD 3, config.retryDelay.getD 1000,
   config.batchSize.getD 10, config.timeout.getD 30000⟩

def emptyConfig : TranslationConfig := ⟨none, none, none, none⟩

/-- Worker for `retryWithBackoff`. `fn a` is the outcome of the attempt with
0-based index `a`; `rem` is the number of further attempts the loop bound
`attempt <= maxRetries` still allows after the current one. Returns the
overall outcome together with the list of inserted backoff delays
(`baseDelay * 2 ^ attempt` after each failed non-final attempt). -/
def retryAux {α : Type} (fn : Nat → Except JsError α) (baseDelay attempt : Nat) :
    Nat → Except JsError α × List Nat
  | 0 =>
    match fn attempt with
    | .ok v => (.ok v, [])
    | .error e => (.error e, [])
  | rem + 1 =>
    match fn attempt with
    | .ok v => (.ok v, [])
    | .error _ =>
      let next := retryAux fn baseDelay (attempt + 1) rem
      (next.1, baseDelay * 2 ^ attempt :: next.2)

/-- `retryWithBackoff` from `src/utils/translation-utils.ts`: the loop
`for (attempt = 0; attempt <= maxRetries; attempt++)`; the error of the final
attempt is rethrown when every attempt fails. -/
def retryWithBackoff {α : Type} (fn : Nat → Except JsError α)
    (maxRetries baseDelay : Nat) : Except JsError α × List Nat :=
  retryAux fn baseDelay 0 maxRetries

/-! ## Batch fallback and the OpenAI batch call -/

def fallbackGo (attemptOutcome : Nat → Nat → Except JsError (List Char))
    (maxRetries baseDelay i : Nat) : List (List Char) → List (List Char)
  | [] => []
  | t :: ts =>
    (match (retryWithBackoff (attemptOutcome i) maxRetries baseDelay).1 with
      | .ok translation => translation
      | .error _ => t) :: fallbackGo attemptOutcome maxRetries baseDelay (i + 1) ts

/-- `BaseTranslator.fallbackToIndividualTranslations`: translate each item
individually under `retryWithBackoff`; an item whose every attempt fails
keeps its original text. `attemptOutcome i a` is the outcome of
`this.translate(texts[i], …)` on attempt `a`. -/
def fallbackToIndividualTranslations (attemptOutcome : Nat → Nat → Except JsError (List Char))
    (texts : List (List Char)) (maxRetries baseDelay : Nat) : List (List Char) :=
  fallbackGo attemptOutcome maxRetries baseDelay 0 texts

/-- `String.prototype.split('|||')` for the `BATCH_SEPARATOR` constant. -/
def splitBatchGo (acc : List Char) : List Char → List (List Char)
  | '|' :: '|' :: '|' :: rest => acc.reverse :: splitBatchGo [] rest
  | c :: rest => splitBatchGo (c :: acc) rest
  | [] => [acc.reverse]

def splitBatchSeparator (s : List Char) : List (List Char) := splitBatchGo [] s

/-- `OpenAITranslator.translateBatch`: on success, split the single response
string on `|||` and trim each piece (a falsy — absent or empty — response
returns the input unchanged); on any error, fall back to individual
translations. -/
def openAITranslateBatch (fetchRes : Except JsError (HTTPResponse OpenAIBody))
    (attemptOutcome : Nat → Nat → Except JsError (List Char))
    (maxRetries baseDelay : Nat) (texts : List (List Char)) :
    Except JsError (List (List Char)) :=
  match makeHTTPRequest openAIName fetchRes with
  | .ok data =>
    match extractTranslationFromResponse data with
    | some result =>
      if result.isEmpty then .ok texts
      else .ok ((splitBatchSeparator result).map jsTrim)
    | none => .ok texts
  | .error _ =>
    .ok (fallbackToIndividualTranslations attemptOutcome texts maxRetries baseDelay)

/-! ## The translation service (`AITranslationService`) -/

inductive StrKind where
  | jsx_text
  | jsx_attribute
  | string_literal
  | template_literal
deriving DecidableEq

/-- `ExtractedString` from `src/parsers/react-parser.ts` (the optional unused
`key` field is never set by the parser and is omitted). -/
structure ExtractedString where
  text : List Char
  line : Nat
  column : Nat
  context : List Char
  type : StrKind
deriving DecidableEq

structure TranslationResult where
  originalText : List Char
  translatedText : List Char
  language : List Char
  context : List Char
deriving DecidableEq

/-- A registered provider: its `name` and the behaviour of its
`translateBatch(texts, targetLang, contexts)` operation. -/
structure Provider where
  name : List Char
  translateBatch : List (List Char) → List Char → List (List Char) →
    Except JsError (List (List Char))

/-- `this.providers.get(providerName)` over the registry. -/
def findProvider (providers : List Provider) (name : List Char) : Option Provider :=
  providers.find? (fun p => p.name = name)

/-- JavaScript `Map.set`: update in place if the key exists, else append. -/
def mapSet {α : Type} (m : List (List Char × α)) (k : List Char) (v : α) :
    List (List Char × α) :=
  match m with
  | [] => [(k, v)]
  | (k', v') :: rest => if k' = k then (k, v) :: rest else (k', v') :: mapSet rest k v

/-- JavaScript `Map.get`. -/
def mapGet {α : Type} (m : List (List Char × α)) (k : List Char) : Option α :=
  match m with
  | [] => none
  | (k', v') :: rest => if k' = k then some v' else mapGet rest k

/-- The body of `translations.map((translation, index) => ({originalText:
extractedStrings[index].text, …}))`: when `translations` is longer than
`extractedStrings`, the access `extractedStrings[index].text` reads a
property of `undefined` and throws a `TypeError`. -/
def buildLangResults : List (List Char) → List ExtractedString → List Char →
    Except JsError (List TranslationResult)
  | [], _, _ => .ok []
  | _ :: _, [], _ =>
    .error (.typeError (strL "Cannot read properties of undefined (reading 'text')"))
  | translation :: ts, s :: ss, lang =>
    (buildLangResults ts ss lang).map
      (fun rest => ⟨s.text, translation, lang, s.context⟩ :: rest)

/-- The `catch` fallback of `translateStrings`: keep every original text. -/
def fallbackAllOriginal (extractedStrings : List ExtractedString) (lang : List Char) :
    List TranslationResult :=
  extractedStrings.map (fun s => ⟨s.text, s.text, lang, s.context⟩)

/-- The per-language `try`/`catch` body of
`AITranslationService.translateStrings`. -/
def translateLanguage (provider : Provider) (extractedStrings : List ExtractedString)
    (texts contexts : List (List Char)) (lang : List Char) : List TranslationResult :=
  match provider.translateBatch texts lang contexts with
  | .ok translations =>
    match buildLangResults translations extractedStrings lang with
    | .ok langResults => langResults
    | .error _ => fallbackAllOriginal extractedStrings lang
  | .error _ => fallbackAllOriginal extractedStrings lang

/-- `AITranslationService.translateStrings`: look the provider up by name
(missing name throws), return the empty map for an empty input, otherwise
build one result sequence per target language in a `Map`. -/
def translateStrings (providers : List Provider) (extractedStrings : List ExtractedString)
    (targetLanguages : List (List Char)) (providerName : List Char) :
    Except JsError (List (List Char × List TranslationResult)) :=
  match findProvider providers providerName with
  | none => .error (.genericError (strL "Provider not found"))
  | some provider =>
    if extractedStrings.length = 0 then .ok []
    else
      let texts := extractedStrings.map ExtractedString.text
      let contexts := extractedStrings.map ExtractedString.context
      .ok (targetLanguages.foldl
        (fun results lang =>
          mapSet results lang (translateLanguage provider extractedStrings texts contexts lang))
        [])

/-- An OpenAI translator registered as a provider: the batch request's
outcome is `fetchRes`, and `attemptOutcome` gives the per-item, per-attempt
outcomes of the single-item `translate` calls made by the fallback (the
target language and contexts only shape the request prompt, which the
outcome oracles already incorporate). -/
def openAIProvider (fetchRes : Except JsError (HTTPResponse OpenAIBody))
    (attemptOutcome : Nat → Nat → Except JsError (List Char))
    (maxRetries baseDelay : Nat) : Provider :=
  ⟨openAIName, fun texts _lang _contexts =>
    openAITranslateBatch fetchRes attemptOutcome maxRetries baseDelay texts⟩

/-! ## Scanner (`FileScanner` from `src/scanner.ts`) -/

structure ScanResult where
  file : List Char
  strings : List ExtractedString
deriving DecidableEq

/-- The per-file loop of `FileScanner.scan`: each input pairs a (relative)
file path with the outcome of parsing it; a file is pushed onto the results
only when it yielded at least one string, and a per-file parse error is
caught and contributes nothing. -/
def scanCollect (outcomes : List (List Char × Except JsError (List ExtractedString))) :
    List ScanResult :=
  outcomes.filterMap (fun fo =>
    match fo.2 with
    | .ok strings => if 0 < strings.length then some ⟨fo.1, strings⟩ else none
    | .error _ => none)

/-- The two statistics printed by `FileScanner.generateSummary`:
`Files scanned` (= `results.length`) and `Translatable strings found`. -/
def summaryCounts (results : List ScanResult) : Nat × Nat :=
  (results.length, results.foldl (fun sum r => sum + r.strings.length) 0)

structure ExportStringEntry where
  str : ExtractedString
  key : List Char
deriving DecidableEq

structure ExportFileEntry where
  file : List Char
  stringCount : Nat
  strings : List ExportStringEntry
deriving DecidableEq

structure ExportData where
  totalFiles : Nat
  totalStrings : Nat
  files : List ExportFileEntry
deriving DecidableEq

/-- `FileScanner.exportToJSON` (the impure `generatedAt` timestamp and the
file write are outside the model; the JSON value is). -/
def exportToJSONModel (nfd : List Char → List Char) (lower : Char → Char)
    (results : List ScanResult) : ExportData :=
  ⟨results.length,
   results.foldl (fun sum r => sum + r.strings.length) 0,
   results.map (fun r =>
     ⟨r.file, r.strings.length,
      r.strings.map (fun s => ⟨s, scannerGenerateKey nfd lower s.text⟩)⟩)⟩

/-! ## The React parser (`ReactParser` from `src/parsers/react-parser.ts`)

The Babel AST is modelled as a tree of nodes. Each node carries: its kind;
a `value` (the raw text of a `StringLiteral`/`JSXText`); `nameField`, the
plain-identifier name of a `JSXElement` tag, `JSXAttribute`,
`VariableDeclarator` id, `ObjectProperty` key or `Identifier` (none when the
corresponding name is not a plain identifier); the cooked `quasis` of a
`TemplateLiteral`; an optional source location; and its child nodes (for a
`JSXExpressionContainer` the contained expression is the first child).
`traverse` visits every node in pre-order; the visitors fire per node kind.

`TaggedString` pairs the `ExtractedString` the source pushes with a ghost
`origin` — the tree path of the syntactic string occurrence the entry
reports (for the `JSXExpressionContainer` visitor that is the contained
literal child, i.e. the container's path extended by 0). The ghost field is
not part of the source record; it only lets theorems speak about how often
one occurrence is reported. -/

inductive NodeKind where
  | jsxElement
  | jsxFragment
  | jsxText
  | jsxExpressionContainer
  | jsxOpeningElement
  | jsxAttribute
  | stringLiteral
  | templateLiteral
  | identifier
  | memberExpression
  | tsType
  | variableDeclarator
  | objectProperty
  | otherNode
deriving DecidableEq

mutual
inductive Node where
  | mk (kind : NodeKind) (value : List Char) (nameField : Option (List Char))
      (quasis : List (List Char)) (loc : Option (Nat × Nat)) (children : NodeList)

inductive NodeList where
  | nil
  | cons (n : Node) (ns : NodeList)
end

def Node.kind : Node → NodeKind
  | .mk k _ _ _ _ _ => k

def Node.value : Node → List Char
  | .mk _ v _ _ _ _ => v

def Node.nameField : Node → Option (List Char)
  | .mk _ _ nm _ _ _ => nm

def Node.quasis : Node → List (List Char)
  | .mk _ _ _ qs _ _ => qs

def Node.loc : Node → Option (Nat × Nat)
  | .mk _ _ _ _ l _ => l

def Node.children : Node → NodeList
  | .mk _ _ _ _ _ cs => cs

def NodeList.head? : NodeList → Option Node
  | .nil => none
  | .cons n _ => some n

def NodeList.get? : NodeList → Nat → Option Node
  | .nil, _ => none
  | .cons n _, 0 => some n
  | .cons _ ns, i + 1 => ns.get? i

/-- `path.node.loc?.start.line || 0`. -/
def locLine : Option (Nat × Nat) → Nat
  | some (l, _) => l
  | none => 0

/-- `path.node.loc?.start.column || 0`. -/
def locColumn : Option (Nat × Nat) → Nat
  | some (_, c) => c
  | none => 0

def isJSXElementOrFragment (k : NodeKind) : Bool :=
  k == NodeKind.jsxElement || k == NodeKind.jsxFragment

/-- `ReactParser.isInJSX`: walk the parent chain (nearest parent first) and
return true on the first `JSXElement`/`JSXFragment`. -/
def isInJSX : List Node → Bool
  | [] => false
  | parent :: rest =>
    if isJSXElementOrFragment parent.kind then true else isInJSX rest

/-- `ReactParser.getJSXContext`. -/
def getJSXContext (anc : List Node) : List Char :=
  match anc.find? (fun p => p.kind == NodeKind.jsxElement) with
  | some el =>
    match el.nameField with
    | some nm => '<' :: (nm ++ ['>'])
    | none => '<' :: (strL "JSXElement" ++ ['>'])
  | none => strL "JSX"

/-- `ReactParser.getJSXAttributeContext`. -/
def getJSXAttributeContext (anc : List Node) : List Char :=
  match anc.find? (fun p => p.kind == NodeKind.jsxAttribute) with
  | some attr =>
    match attr.nameField with
    | some nm => strL "JSX attribute: " ++ nm
    | none => strL "JSX attribute: attribute"
  | none => strL "JSX attribute"

/-- `ReactParser.getVariableContext`. -/
def getVariableContext (anc : List Node) : List Char :=
  match
    match anc.find? (fun p => p.kind == NodeKind.variableDeclarator) with
    | some decl => decl.nameField.map (fun nm => strL "Variable: " ++ nm)
    | none => none
  with
  | some s => s
  | none =>
    match anc.find? (fun p => p.kind == NodeKind.objectProperty) with
    | some prop =>
      match prop.nameField with
      | some nm => strL "Object property: " ++ nm
      | none => strL "String literal"
    | none => strL "String literal"

/-- `ReactParser.getExpressionPlaceholder`. -/
def getExpressionPlaceholder (expr : Node) : List Char :=
  if expr.kind == NodeKind.identifier then
    match expr.nameField with
    | some nm => nm
    | none => []
  else if expr.kind == NodeKind.memberExpression then strL "value"
  else if expr.kind == NodeKind.tsType then strL "type"
  else strL "expression"

/-- `ReactParser.reconstructTemplateLiteral`: concatenate the quasis,
inserting a braced placeholder after quasi `i` while expressions remain. -/
def reconstructTemplateGo : List (List Char) → NodeList → List Char
  | [], _ => []
  | q :: qs, NodeList.nil => q ++ reconstructTemplateGo qs NodeList.nil
  | q :: qs, NodeList.cons e es =>
    q ++ ('\x7b' :: (getExpressionPlaceholder e ++ ['\x7d'])) ++ reconstructTemplateGo qs es

structure TaggedString where
  str : ExtractedString
  origin : List Nat
deriving DecidableEq

/-- The entries pushed when the traversal enters node `n` at path `p` with
ancestor chain `anc` (nearest first): the four visitors of
`ReactParser.parseFile`. -/
def visitHere (anc : List Node) (p : List Nat) (n : Node) : List TaggedString :=
  match n.kind with
  | .jsxText =>
    let text := jsTrim n.value
    if shouldExtract text then
      [⟨⟨text, locLine n.loc, locColumn n.loc, getJSXContext anc, .jsx_text⟩, p⟩]
    else []
  | .jsxExpressionContainer =>
    match n.children.head? with
    | some expr =>
      if expr.kind == NodeKind.stringLiteral then
        if shouldExtract expr.value then
          [⟨⟨expr.value, locLine n.loc, locColumn n.loc, getJSXAttributeContext anc,
             .jsx_attribute⟩, p ++ [0]⟩]
        else []
      else []
    | none => []
  | .stringLiteral =>
    if isInJSX anc then []
    else if shouldExtract n.value then
      [⟨⟨n.value, locLine n.loc, locColumn n.loc, getVariableContext anc, .string_literal⟩, p⟩]
    else []
  | .templateLiteral =>
    if isInJSX anc then []
    else
      let text := reconstructTemplateGo n.quasis n.children
      if shouldExtract text then
        [⟨⟨text, locLine n.loc, locColumn n.loc, getVariableContext anc, .template_literal⟩, p⟩]
      else []
  | _ => []

mutual
/-- Pre-order traversal of `traverse(ast, {...})`, firing `visitHere` at
every node. `anc` is the ancestor chain (nearest first), `p` the path of
`n` in the whole tree. -/
def extractNode (anc : List Node) (p : List Nat) : Node → List TaggedString
  | .mk k v nm qs l cs =>
    visitHere anc p (.mk k v nm qs l cs) ++
      extractChildren ((Node.mk k v nm qs l cs) :: anc) p 0 cs

def extractChildren (anc : List Node) (p : List Nat) (i : Nat) : NodeList → List TaggedString
  | .nil => []
  | .cons c cs => extractNode anc (p ++ [i]) c ++ extractChildren anc p (i + 1) cs
end

/-- `ReactParser.parseFile` on an already-parsed tree. -/
def extractFile (root : Node) : List TaggedString := extractNode [] [] root

/-- The node reached from `n` by the child-index path `q`. -/
def nodeAt : Node → List Nat → Option Node
  | n, [] => some n
  | .mk _ _ _ _ _ cs, i :: q =>
    match cs.get? i with
    | some c => nodeAt c q
    | none => none

/-- The kinds of the proper ancestors (outermost first) of the node reached
by path `q`. -/
def ancKindsAt : Node → List Nat → List NodeKind
  | _, [] => []
  | .mk k _ _ _ _ cs, i :: q =>
    k :: (match cs.get? i with
          | some c => ancKindsAt c q
          | none => [])

def containsJSX (ks : List NodeKind) : Bool := ks.any isJSXElementOrFragment

/-- The extraction entries reporting the string occurrence at path `q`. -/
def entriesAt (es : List TaggedString) (q : List Nat) : List TaggedString :=
  es.filter (fun e => e.origin == q)

/-! ## Concrete inputs used by counterexamples and witnesses -/

/-- 49 `a`s followed by `" b"`: after underscore-collapsing this is 51
characters with an underscore at index 49, so truncation to 50 ends on it.
The input is pure lowercase ASCII, on which NFD normalization and
lowercasing are both the identity. -/
def trailingUnderscoreInput : List Char := List.replicate 49 'a' ++ strL " b"

def demoError : JsError := JsError.genericError []

/-- An attempt oracle that fails three times and succeeds on the fourth
attempt (0-based index 3). -/
def threeFailuresFn : Nat → Except JsError Nat :=
  fun n => if n < 3 then .error demoError else .ok 42

/-- A registered provider (named like the OpenAI one) whose batch operation
always throws. -/
def demoProvider : Provider := ⟨openAIName, fun _ _ _ => .error demoError⟩

def demoScanString : ExtractedString :=
  ⟨strL "Hello world", 1, 0, strL "Variable: message", .string_literal⟩

/-- A two-file scan: one file with a string, one with none. -/
def demoOutcomes : List (List Char × Except JsError (List ExtractedString)) :=
  [(strL "a.tsx", .ok [demoScanString]), (strL "b.tsx", .ok [])]

def cexStringA : ExtractedString :=
  ⟨strL "Hello world", 1, 0, strL "Variable: message", .string_literal⟩

def cexStringB : ExtractedString :=
  ⟨strL "Goodbye now", 2, 4, strL "Variable: farewell", .string_literal⟩

/-- An OK OpenAI batch response whose content contains no `|||` separator:
it splits into a single piece. -/
def shortSplitBody : OpenAIBody := ⟨some [⟨some ⟨some (strL "Bonjour le monde")⟩⟩]⟩

/-- The OpenAI translator whose batch request receives `shortSplitBody`. -/
def shortSplitProvider : Provider :=
  openAIProvider (.ok ⟨true, 200, strL "OK", shortSplitBody⟩) (fun _ _ => .error demoError) 3 1000

/-- The parsed tree of `<Button label="Confirmer maintenant" />`: the
attribute value is a bare `StringLiteral` (no expression container). -/
def bareAttrLit : Node :=
  .mk .stringLiteral (strL "Confirmer maintenant") none [] (some (1, 14)) .nil

def bareAttrTree : Node :=
  .mk .jsxElement [] (some (strL "Button")) [] (some (1, 0))
    (.cons (.mk .jsxOpeningElement [] none [] (some (1, 0))
      (.cons (.mk .jsxAttribute [] (some (strL "label")) [] (some (1, 8))
        (.cons bareAttrLit .nil)) .nil)) .nil)

/-- The parsed tree of `<Button label={"Confirmer maintenant"} />`: the
attribute value is a `JSXExpressionContainer` holding a `StringLiteral`. -/
def attrLit : Node :=
  .mk .stringLiteral (strL "Confirmer maintenant") none [] (some (1, 15)) .nil

def attrContainer : Node :=
  .mk .jsxExpressionContainer [] none [] (some (1, 14)) (.cons attrLit .nil)

def containerTree : Node :=
  .mk .jsxElement [] (some (strL "Button")) [] (some (1, 0))
    (.cons (.mk .jsxOpeningElement [] none [] (some (1, 0))
      (.cons (.mk .jsxAttribute [] (some (strL "label")) [] (some (1, 8))
        (.cons attrContainer .nil)) .nil)) .nil)

/-- The single entry `containerTree` extracts. -/
def demoAttrEntry : TaggedString :=
  ⟨⟨strL "Confirmer maintenant", 1, 14, strL "JSX attribute: label", .jsx_attribute⟩,
   [0, 0, 0, 0]⟩

end I18nAi

/-! # Theorems -/

namespace I18nAi

/-! ### Helper lemmas -/

theorem isEmpty_length_lt (t : List Char) (h : t.isEmpty = true) : t.length < 2 := by
  cases t with
  | nil => simp
  | cons a l => simp [List.isEmpty] at h

theorem dropWhile_head?_not (p : Char → Bool) (s : List Char) (c : Char)
    (h : (s.dropWhile p).head? = some c) : p c = false := by
  induction s with
  | nil => simp [List.dropWhile] at h
  | cons a t ih =>
    by_cases hpa : p a = true
    · rw [List.dropWhile_cons_of_pos hpa] at h
      exact ih h
    · rw [List.dropWhile_cons_of_neg (by simpa using hpa)] at h
      simp at h
      rw [← h]
      simpa using hpa

theorem dropWhile_is_suffix (p : Char → Bool) (l : List Char) :
    ∃ t, t ++ l.dropWhile p = l := by
  induction l with
  | nil => exact ⟨[], rfl⟩
  | cons a t ih =>
    by_cases hpa : p a = true
    · obtain ⟨u, hu⟩ := ih
      refine ⟨a :: u, ?_⟩
      rw [List.dropWhile_cons_of_pos hpa]
      simpa using hu
    · exact ⟨[], by rw [List.dropWhile_cons_of_neg (by simpa using hpa)]; simp⟩

/-- The head of `stripEdgeUnderscores s` (when it exists) equals the head of
`s.dropWhile (· = '_')`, hence is not an underscore. -/
theorem stripEdgeUnderscores_head (s : List Char) (c : Char)
    (h : (stripEdgeUnderscores s).head? = some c) : (c == '_') = false := by
  unfold stripEdgeUnderscores at h
  set p : Char → Bool := fun c => c = '_' with hp
  set u : List Char := s.dropWhile p with hu
  set d : List Char := u.reverse.dropWhile p with hd
  have hdr : d.reverse.head? = some c := h
  have hlast : d.getLast? = some c := by rwa [List.head?_reverse] at hdr
  have hdne : d ≠ [] := by
    intro hnil
    rw [hnil] at hlast
    simp at hlast
  obtain ⟨t, ht⟩ := dropWhile_is_suffix p u.reverse
  have hlast2 : u.reverse.getLast? = some c := by
    rw [← ht, List.getLast?_append_of_ne_nil _ hdne]
    exact hlast
  have hhead : u.head? = some c := by
    rwa [List.getLast?_reverse] at hlast2
  have hpc : p c = false := dropWhile_head?_not p s c (hu ▸ hhead)
  simpa [hp] using hpc

theorem collapseGo_chars (s : List Char) : ∀ (b : Bool) (c : Char),
    c ∈ collapseGo b s → keyChar c = true ∨ c = '_' := by
  induction s with
  | nil => intro b c h; simp [collapseGo] at h
  | cons a t ih =>
    intro b c h
    unfold collapseGo at h
    by_cases hk : keyChar a = true
    · rw [if_pos hk] at h
      rcases List.mem_cons.mp h with h | h
      · exact Or.inl (h ▸ hk)
      · exact ih false c h
    · rw [if_neg hk] at h
      by_cases hb : b = true
      · rw [hb, if_pos rfl] at h
        exact ih true c h
      · rw [if_neg (by simpa using hb)] at h
        rcases List.mem_cons.mp h with h | h
        · exact Or.inr h
        · exact ih true c h

theorem stripEdgeUnderscores_subset (s : List Char) (c : Char)
    (h : c ∈ stripEdgeUnderscores s) : c ∈ s := by
  unfold stripEdgeUnderscores at h
  rw [List.mem_reverse] at h
  have h2 := (List.dropWhile_sublist _).subset h
  rw [List.mem_reverse] at h2
  exact (List.dropWhile_sublist _).subset h2

/-! ### C4 — the string classifier -/

/-- C4: `shouldExtract(t)` is false exactly when one of the listed rejection
conditions holds (length < 2, only whitespace, bare identifier,
relative-path-only, pure integer/decimal numeral, 3–8-digit hex color, or
the substring `className` or `onClick` occurs); any string satisfying none
of them is accepted. -/
theorem shouldExtractString_iff_rejects (t : List Char) :
    shouldExtractString t = false ↔
      (t.length < 2 ∨ onlyWhitespaceShape t = true ∨ identifierShape t = true ∨
        relPathShape t = true ∨ numeralShape t = true ∨ hexColorShape t = true ∨
        containsSub (strL "className") t = true ∨ containsSub (strL "onClick") t = true) := by
  unfold shouldExtractString
  split_ifs with h1 h2 h3 h4 h5 h6 h7
  · rcases h1 with h | h
    · simp [isEmpty_length_lt t h]
    · simp [h]
  all_goals simp_all

/-! ### C5 / C6 — key derivation -/

/-- C5 (amended): key derivation is deterministic; the output matches
`^[a-z0-9_]{0,50}$` and never starts with an underscore; truncation to the
maximum length can however leave a trailing underscore (see the
counterexample below). -/
theorem generateTranslationKey_shape (nfd : List Char → List Char) (lower : Char → Char)
    (t : List Char) :
    generateTranslationKey nfd lower t 50 = generateTranslationKey nfd lower t 50 ∧
    (generateTranslationKey nfd lower t 50).length ≤ 50 ∧
    (generateTranslationKey nfd lower t 50).all (fun c => keyChar c || c == '_') = true ∧
    headIsUnderscore (generateTranslationKey nfd lower t 50) = false := by
  refine ⟨rfl, ?_, ?_, ?_⟩
  · exact List.length_take_le 50 _
  · rw [List.all_eq_true]
    intro c hc
    have hc2 := (List.take_sublist 50 _).subset hc
    have hc3 := stripEdgeUnderscores_subset _ c hc2
    rcases collapseGo_chars _ false c hc3 with h | h
    · simp [h]
    · simp [h]
  · unfold headIsUnderscore
    cases hh : (generateTranslationKey nfd lower t 50).head? with
    | none => rfl
    | some c =>
      unfold generateTranslationKey at hh
      rcases hl : stripEdgeUnderscores (collapseNonAlnum
          ((stripDiacritics (nfd t)).map lower)) with _ | ⟨a, l⟩
      · rw [hl] at hh; simp at hh
      · rw [hl] at hh
        have ht : List.take 50 (a :: l) = a :: List.take 49 l := rfl
        rw [ht] at hh
        simp at hh
        exact stripEdgeUnderscores_head _ c (by rw [hl, ← hh]; rfl)

/-- C5 counterexample: on 49 `a`s followed by `" b"` (pure ASCII, where NFD
and lowercasing are the identity) the derived key is 49 `a`s followed by an
underscore — the claimed "no trailing underscore" fails after truncation. -/
theorem generateTranslationKey_trailing_underscore_cex :
    (generateTranslationKey id id trailingUnderscoreInput 50).getLast? = some '_' ∧
    (generateTranslationKey id id trailingUnderscoreInput 50).length = 50 := by
  constructor <;> rfl

/-- C6: the key computed by the scanner's extraction-export pass
(`FileScanner.generateKey`) and the key computed by the translated-results
mapping pass (`TranslationFileGenerator.generateKey`, i.e.
`generateTranslationKey` at the default maximum length) agree byte-for-byte
on every input text, for any implementation of the NFD/lowercase
primitives. -/
theorem generateKey_passes_agree (nfd : List Char → List Char) (lower : Char → Char)
    (t : List Char) :
    scannerGenerateKey nfd lower t = generatorGenerateKey nfd lower t := rfl

/-! ### C7 — retry with exponential backoff -/

theorem retryAux_all_fail {α : Type} (fn : Nat → Except JsError α) (base : Nat)
    (errAt : Nat → JsError) :
    ∀ (rem attempt : Nat), (∀ n, attempt ≤ n → n ≤ attempt + rem → fn n = .error (errAt n)) →
      retryAux fn base attempt rem =
        (.error (errAt (attempt + rem)), (List.range rem).map fun j => base * 2 ^ (attempt + j)) := by
  intro rem
  induction rem with
  | zero =>
    intro attempt h
    have h0 := h attempt le_rfl (by omega)
    simp [retryAux, h0]
  | succ r ih =>
    intro attempt h
    have h0 := h attempt le_rfl (by omega)
    have hrec := ih (attempt + 1) (fun n h1 h2 => h n (by omega) (by omega))
    unfold retryAux
    rw [h0, hrec]
    have he : attempt + (r + 1) = attempt + 1 + r := by omega
    rw [he]
    have hlist : (List.range (r + 1)).map (fun j => base * 2 ^ (attempt + j)) =
        base * 2 ^ attempt :: (List.range r).map (fun j => base * 2 ^ (attempt + 1 + j)) := by
      rw [List.range_succ_eq_map, List.map_cons, List.map_map]
      refine List.cons_eq_cons.mpr ⟨by simp, ?_⟩
      apply List.map_congr_left
      intro j _
      show base * 2 ^ (attempt + (j + 1)) = base * 2 ^ (attempt + 1 + j)
      have hj : attempt + (j + 1) = attempt + 1 + j := by omega
      rw [hj]
    rw [hlist]

theorem retryAux_last_ok {α : Type} (fn : Nat → Except JsError α) (base : Nat) (v : α) :
    ∀ (rem attempt : Nat), (∀ n, attempt ≤ n → n < attempt + rem → ∃ e, fn n = .error e) →
      fn (attempt + rem) = .ok v → (retryAux fn base attempt rem).1 = .ok v := by
  intro rem
  induction rem with
  | zero =>
    intro attempt _ hok
    simp at hok
    simp [retryAux, hok]
  | succ r ih =>
    intro attempt h hok
    obtain ⟨e, he⟩ := h attempt le_rfl (by omega)
    have hrec := ih (attempt + 1) (fun n h1 h2 => h n (by omega) (by omega))
      (by rw [show attempt + 1 + r = attempt + (r + 1) by omega]; exact hok)
    unfold retryAux
    rw [he]
    simpa using hrec

/-- C7 (amended): the per-item fallback retry runs the loop
`for (attempt = 0; attempt <= maxRetries; attempt++)`, i.e. up to
`maxRetries + 1` attempts — with the default configuration
(`maxRetries = 3`, `retryDelay = 1000`) that is 4 attempts, not 3; the
delay inserted before 1-based attempt `k` (`k ≥ 2`) is
`base_delay * 2 ^ (k-2)` (the list below places `base_delay * 2 ^ a` after
the failed 0-based attempt `a`); when every attempt fails, the error of the
final attempt is rethrown. -/
theorem retryWithBackoff_spec {α : Type} (fn : Nat → Except JsError α)
    (maxRetries baseDelay : Nat) :
    ((mergeConfig emptyConfig).maxRetries = 3 ∧ (mergeConfig emptyConfig).retryDelay = 1000) ∧
    (∀ errAt : Nat → JsError, (∀ n, n ≤ maxRetries → fn n = .error (errAt n)) →
      retryWithBackoff fn maxRetries baseDelay =
        (.error (errAt maxRetries), (List.range maxRetries).map fun a => baseDelay * 2 ^ a)) ∧
    (∀ v : α, (∀ n, n < maxRetries → ∃ e, fn n = .error e) → fn maxRetries = .ok v →
      (retryWithBackoff fn maxRetries baseDelay).1 = .ok v) := by
  refine ⟨⟨rfl, rfl⟩, ?_, ?_⟩
  · intro errAt h
    have := retryAux_all_fail fn baseDelay errAt maxRetries 0
      (fun n h1 h2 => h n (by omega))
    simpa [retryWithBackoff] using this
  · intro v h hok
    have := retryAux_last_ok fn baseDelay v maxRetries 0
      (fun n h1 h2 => h n (by omega)) (by simpa using hok)
    simpa [retryWithBackoff] using this

/-- Witness for C7: with the default `maxRetries = 3` and base delay 1000,
an oracle failing on attempts 0–2 and succeeding on attempt 3 makes the
whole retry succeed — the 4th attempt does run. -/
theorem retryWithBackoff_spec_witness :
    (retryWithBackoff threeFailuresFn 3 1000).1 = .ok 42 :=
  (retryWithBackoff_spec threeFailuresFn 3 1000).2.2 42
    (fun n hn => ⟨demoError, by simp [threeFailuresFn, hn]⟩)
    (by simp [threeFailuresFn])

/-- C7 counterexample: under the default `maxRetries = 3` the claimed
"maximum of 3 attempts" fails — an oracle whose attempts 0–2 all fail still
succeeds via a 4th attempt — and the delay inserted before 1-based attempt 2
is 1000 = base_delay * 2^0, not base_delay * 2^(2-1). -/
theorem retryWithBackoff_four_attempts_cex :
    retryWithBackoff threeFailuresFn 3 1000 = (.ok 42, [1000, 2000, 4000]) ∧
    [1000, 2000, 4000].head? ≠ some (1000 * 2 ^ (2 - 1)) := by
  constructor
  · rfl
  · decide

/-! ### Map and translateStrings helper lemmas -/

theorem mapGet_mapSet_self {α : Type} (m : List (List Char × α)) (k : List Char) (v : α) :
    mapGet (mapSet m k v) k = some v := by
  induction m with
  | nil => simp [mapSet, mapGet]
  | cons p rest ih =>
    obtain ⟨k', v'⟩ := p
    by_cases h : k' = k
    · simp [mapSet, mapGet, h]
    · simp [mapSet, mapGet, h, ih]

theorem mapGet_mapSet_other {α : Type} (m : List (List Char × α)) (k k' : List Char) (v : α)
    (h : k' ≠ k) : mapGet (mapSet m k v) k' = mapGet m k' := by
  have hns : ¬k = k' := fun hh => h hh.symm
  induction m with
  | nil => simp [mapSet, mapGet, hns]
  | cons p rest ih =>
    obtain ⟨k0, v0⟩ := p
    by_cases h0 : k0 = k
    · subst h0
      simp [mapSet, mapGet, hns]
    · simp [mapSet, mapGet, h0, ih]

theorem foldl_mapSet_not_mem {α : Type} (f : List Char → α) (lang : List Char) :
    ∀ (langs : List (List Char)) (init : List (List Char × α)), lang ∉ langs →
      mapGet (langs.foldl (fun acc l => mapSet acc l (f l)) init) lang = mapGet init lang := by
  intro langs
  induction langs with
  | nil => intro init _; rfl
  | cons l ls ih =>
    intro init hmem
    have h1 : lang ≠ l := fun h => hmem (h ▸ List.mem_cons_self l ls)
    have h2 : lang ∉ ls := fun h => hmem (List.mem_cons_of_mem l h)
    rw [List.foldl_cons, ih _ h2, mapGet_mapSet_other _ _ _ _ h1]

theorem foldl_mapSet_mem {α : Type} (f : List Char → α) (lang : List Char) :
    ∀ (langs : List (List Char)) (init : List (List Char × α)), lang ∈ langs →
      mapGet (langs.foldl (fun acc l => mapSet acc l (f l)) init) lang = some (f lang) := by
  intro langs
  induction langs with
  | nil => intro init h; simp at h
  | cons l ls ih =>
    intro init hmem
    by_cases h2 : lang ∈ ls
    · rw [List.foldl_cons, ih _ h2]
    · have h1 : lang = l := by
        rcases List.mem_cons.mp hmem with h | h
        · exact h
        · exact absurd h h2
      subst h1
      rw [List.foldl_cons, foldl_mapSet_not_mem f lang ls _ h2, mapGet_mapSet_self]

theorem buildLangResults_eq_zipWith (lang : List Char) :
    ∀ (ts : List (List Char)) (ss : List ExtractedString), ts.length ≤ ss.length →
      buildLangResults ts ss lang =
        .ok (List.zipWith (fun tr s => (⟨s.text, tr, lang, s.context⟩ : TranslationResult)) ts ss) := by
  intro ts
  induction ts with
  | nil => intro ss _; simp [buildLangResults]
  | cons t ts ih =>
    intro ss hlen
    cases ss with
    | nil => simp at hlen
    | cons s ss =>
      simp only [List.length_cons, Nat.add_le_add_iff_right] at hlen
      simp [buildLangResults, ih ss hlen, List.zipWith, Except.map]

theorem buildLangResults_overflow (lang : List Char) :
    ∀ (ts : List (List Char)) (ss : List ExtractedString), ss.length < ts.length →
      ∃ e, buildLangResults ts ss lang = .error e := by
  intro ts
  induction ts with
  | nil => intro ss h; simp at h
  | cons t ts ih =>
    intro ss hlen
    cases ss with
    | nil => exact ⟨_, rfl⟩
    | cons s ss =>
      simp only [List.length_cons, Nat.add_lt_add_iff_right] at hlen
      obtain ⟨e, he⟩ := ih ss hlen
      exact ⟨e, by simp [buildLangResults, he, Except.map]⟩

theorem zipWith_tr_facts (lang : List Char) :
    ∀ (ts : List (List Char)) (ss : List ExtractedString) (i : Nat), i < ts.length →
      ts.length ≤ ss.length →
      (List.zipWith (fun tr s => (⟨s.text, tr, lang, s.context⟩ : TranslationResult))
          ts ss)[i]?.map TranslationResult.originalText = ss[i]?.map ExtractedString.text ∧
      (List.zipWith (fun tr s => (⟨s.text, tr, lang, s.context⟩ : TranslationResult))
          ts ss)[i]?.map TranslationResult.translatedText = ts[i]? := by
  intro ts
  induction ts with
  | nil => intro ss i h; simp at h
  | cons t ts ih =>
    intro ss i hi hlen
    cases ss with
    | nil => simp at hlen
    | cons s ss =>
      cases i with
      | zero => simp [List.zipWith]
      | succ j =>
        simp only [List.length_cons, Nat.add_le_add_iff_right] at hlen
        simp only [List.length_cons, Nat.add_lt_add_iff_right] at hi
        simpa [List.zipWith] using ih ss j hi hlen

theorem retryAux_error {α : Type} (fn : Nat → Except JsError α) (base : Nat)
    (h : ∀ a, ∃ e, fn a = .error e) :
    ∀ (rem attempt : Nat), ∃ e, (retryAux fn base attempt rem).1 = .error e := by
  intro rem
  induction rem with
  | zero =>
    intro attempt
    obtain ⟨e, he⟩ := h attempt
    exact ⟨e, by simp [retryAux, he]⟩
  | succ r ih =>
    intro attempt
    obtain ⟨e, he⟩ := h attempt
    obtain ⟨e', he'⟩ := ih (attempt + 1)
    exact ⟨e', by simp [retryAux, he, he']⟩

theorem fallbackGo_length (ao : Nat → Nat → Except JsError (List Char)) (maxR base : Nat) :
    ∀ (texts : List (List Char)) (i : Nat),
      (fallbackGo ao maxR base i texts).length = texts.length := by
  intro texts
  induction texts with
  | nil => intro i; rfl
  | cons t ts ih => intro i; simp [fallbackGo, ih]

theorem fallbackGo_failed_item (ao : Nat → Nat → Except JsError (List Char)) (maxR base : Nat) :
    ∀ (texts : List (List Char)) (i j : Nat), (∀ a, ∃ e, ao (i + j) a = .error e) →
      (fallbackGo ao maxR base i texts)[j]? = texts[j]? := by
  intro texts
  induction texts with
  | nil => intro i j _; rfl
  | cons t ts ih =>
    intro i j h
    cases j with
    | zero =>
      obtain ⟨e, he⟩ := retryAux_error (ao i) base (by simpa using h) maxR 0
      simp [fallbackGo, retryWithBackoff, he]
    | succ j' =>
      have hsh : ∀ a, ∃ e, ao (i + 1 + j') a = .error e := by
        intro a
        have : i + 1 + j' = i + (j' + 1) := by omega
        rw [this]
        exact h a
      simp [fallbackGo, ih (i + 1) j' hsh]

theorem makeHTTPRequest_error {β : Type} (name : List Char) (e : JsError) :
    ∃ e', makeHTTPRequest name (Except.error e : Except JsError (HTTPResponse β)) = .error e' := by
  cases e <;> exact ⟨_, rfl⟩

theorem openAITranslateBatch_fetch_error (fetchErr : JsError)
    (ao : Nat → Nat → Except JsError (List Char)) (maxR base : Nat)
    (texts : List (List Char)) :
    openAITranslateBatch (.error fetchErr) ao maxR base texts =
      .ok (fallbackToIndividualTranslations ao texts maxR base) := by
  unfold openAITranslateBatch
  obtain ⟨e', he'⟩ := @makeHTTPRequest_error OpenAIBody openAIName fetchErr
  rw [he']

/-- Shared skeleton: with a registered provider and a non-empty input, the
entry of each requested language is `translateLanguage` for that language. -/
theorem translateStrings_lang_entry (providers : List Provider) (provider : Provider)
    (strings : List ExtractedString) (langs : List (List Char)) (lang name : List Char)
    (hfind : findProvider providers name = some provider)
    (hne : strings ≠ []) (hmem : lang ∈ langs) :
    ∃ res, translateStrings providers strings langs name = .ok res ∧
      mapGet res lang = some (translateLanguage provider strings
        (strings.map ExtractedString.text) (strings.map ExtractedString.context) lang) := by
  unfold translateStrings
  rw [hfind]
  dsimp only
  rw [if_neg (by simpa using hne)]
  exact ⟨_, rfl, foldl_mapSet_mem _ lang langs [] hmem⟩

/-! ### C10 — empty input short-circuits -/

/-- C10: with a registered provider, translating an empty extracted-string
list returns the empty map — no entry for any requested language — and the
result does not depend on the provider's operations at all (the theorem
holds for arbitrary registered providers). -/
theorem translateStrings_empty_input (providers : List Provider) (name : List Char)
    (langs : List (List Char)) (p : Provider)
    (hfind : findProvider providers name = some p) :
    translateStrings providers [] langs name = .ok [] ∧
    (∀ lang, mapGet ([] : List (List Char × List TranslationResult)) lang = none) := by
  constructor
  · unfold translateStrings
    rw [hfind]
    rfl
  · intro lang
    rfl

/-- Witness for C10 at a concrete registry and language list. -/
theorem translateStrings_empty_input_witness :
    translateStrings [demoProvider] [] [strL "fr"] (strL "OpenAI") = .ok [] ∧
    mapGet ([] : List (List Char × List TranslationResult)) (strL "fr") = none := by
  obtain ⟨h1, h2⟩ :=
    translateStrings_empty_input [demoProvider] (strL "OpenAI") [strL "fr"] demoProvider rfl
  exact ⟨h1, h2 (strL "fr")⟩

/-! ### C9 — files without strings in scan output and summary -/

/-- C9 (amended): a file with zero translatable strings (or a failed parse)
is omitted from the persisted `ScanResult` output and from the exported JSON
`files` array, and it is *not* counted in the summary's `Files scanned`
statistic or the export's `totalFiles` — both count only files that
contributed at least one string. -/
theorem scanner_omits_empty_files (nfd : List Char → List Char) (lower : Char → Char)
    (outcomes : List (List Char × Except JsError (List ExtractedString))) :
    (∀ r, r ∈ scanCollect outcomes → 0 < r.strings.length) ∧
    (∀ pre post file,
      scanCollect (pre ++ (file, Except.ok ([] : List ExtractedString)) :: post) =
        scanCollect (pre ++ post)) ∧
    (summaryCounts (scanCollect outcomes)).1 = (scanCollect outcomes).length ∧
    (exportToJSONModel nfd lower (scanCollect outcomes)).totalFiles =
      (scanCollect outcomes).length ∧
    (exportToJSONModel nfd lower (scanCollect outcomes)).files.length =
      (scanCollect outcomes).length := by
  refine ⟨?_, ?_, rfl, rfl, by simp [exportToJSONModel]⟩
  · intro r hr
    unfold scanCollect at hr
    obtain ⟨fo, _, heq⟩ := List.mem_filterMap.mp hr
    obtain ⟨file, outcome⟩ := fo
    cases outcome with
    | ok strings =>
      by_cases hlen : 0 < strings.length
      · simp only [if_pos hlen] at heq
        cases heq
        exact hlen
      · simp [if_neg hlen] at heq
    | error e => simp at heq
  · intro pre post file
    unfold scanCollect
    rw [List.filterMap_append, List.filterMap_append, List.filterMap_cons]
    simp

/-- Witness for C9 on a two-file scan where the second file has no
strings. -/
theorem scanner_omits_empty_files_witness :
    0 < (⟨strL "a.tsx", [demoScanString]⟩ : ScanResult).strings.length ∧
    scanCollect ([(strL "a.tsx", Except.ok [demoScanString])] ++
        (strL "b.tsx", Except.ok ([] : List ExtractedString)) :: []) =
      scanCollect ([(strL "a.tsx", Except.ok [demoScanString])] ++ []) := by
  constructor
  · exact (scanner_omits_empty_files id id demoOutcomes).1 ⟨strL "a.tsx", [demoScanString]⟩
      (by rw [show scanCollect demoOutcomes = [⟨strL "a.tsx", [demoScanString]⟩] from rfl]
          exact List.mem_singleton.mpr rfl)
  · exact (scanner_omits_empty_files id id demoOutcomes).2.1
      [(strL "a.tsx", Except.ok [demoScanString])] [] (strL "b.tsx")

/-- C9 counterexample: two files are scanned but the summary's
`Files scanned` statistic is 1 — the zero-string file is not counted, contrary
to the claim. -/
theorem scanner_summary_counts_cex :
    (summaryCounts (scanCollect demoOutcomes)).1 = 1 ∧
    demoOutcomes.length = 2 ∧ (1 : Nat) ≠ 2 := by
  refine ⟨rfl, rfl, by decide⟩

/-! ### C2 — silent degrade to original text -/

/-- C2: (a) when the OpenAI batch call fails and every retry attempt of the
single-item translate for item `i` also fails, that language's result
sequence still has full length and its `i`-th entry carries the original
text as `translatedText` (the failure is absorbed); (b) when a provider's
whole batch call throws at the outer level, the language's entry is a
full-length all-original-text result set rather than being omitted. -/
theorem translateStrings_fallback_degrade :
    (∀ (fetchErr : JsError) (ao : Nat → Nat → Except JsError (List Char))
        (maxR base : Nat) (strings : List ExtractedString) (langs : List (List Char))
        (lang : List Char) (i : Nat),
        strings ≠ [] → lang ∈ langs → i < strings.length →
        (∀ a, ∃ e, ao i a = .error e) →
        ∃ res rs,
          translateStrings [openAIProvider (.error fetchErr) ao maxR base] strings langs
            openAIName = .ok res ∧
          mapGet res lang = some rs ∧
          rs.length = strings.length ∧
          rs[i]?.map TranslationResult.translatedText = strings[i]?.map ExtractedString.text ∧
          rs[i]?.map TranslationResult.originalText = strings[i]?.map ExtractedString.text) ∧
    (∀ (providers : List Provider) (provider : Provider) (strings : List ExtractedString)
        (langs : List (List Char)) (lang name : List Char) (e : JsError),
        findProvider providers name = some provider → strings ≠ [] → lang ∈ langs →
        provider.translateBatch (strings.map ExtractedString.text) lang
          (strings.map ExtractedString.context) = .error e →
        ∃ res, translateStrings providers strings langs name = .ok res ∧
          mapGet res lang = some (fallbackAllOriginal strings lang) ∧
          (fallbackAllOriginal strings lang).length = strings.length ∧
          (∀ j : Nat, (fallbackAllOriginal strings lang)[j]?.map TranslationResult.translatedText =
            strings[j]?.map ExtractedString.text)) := by
  constructor
  · intro fetchErr ao maxR base strings langs lang i hne hmem hi hfail
    obtain ⟨res, hres, hentry⟩ := translateStrings_lang_entry
      [openAIProvider (.error fetchErr) ao maxR base]
      (openAIProvider (.error fetchErr) ao maxR base) strings langs lang openAIName rfl hne hmem
    set texts := strings.map ExtractedString.text with htexts
    set fb := fallbackToIndividualTranslations ao texts maxR base with hfb
    have hbatch : (openAIProvider (.error fetchErr) ao maxR base).translateBatch texts lang
        (strings.map ExtractedString.context) = .ok fb :=
      openAITranslateBatch_fetch_error fetchErr ao maxR base texts
    have hfbl : fb.length = strings.length := by
      rw [hfb]
      unfold fallbackToIndividualTranslations
      rw [fallbackGo_length, htexts, List.length_map]
    have hzip := buildLangResults_eq_zipWith lang fb strings (le_of_eq hfbl)
    have htl : translateLanguage (openAIProvider (.error fetchErr) ao maxR base) strings
        texts (strings.map ExtractedString.context) lang =
        List.zipWith (fun tr s => (⟨s.text, tr, lang, s.context⟩ : TranslationResult))
          fb strings := by
      unfold translateLanguage
      rw [hbatch]
      dsimp only
      rw [hzip]
    refine ⟨res, _, hres, by rw [hentry, htl], ?_, ?_, ?_⟩
    · rw [List.length_zipWith, hfbl, Nat.min_self]
    · have hif : i < fb.length := by rw [hfbl]; exact hi
      have hfacts := zipWith_tr_facts lang fb strings i hif (le_of_eq hfbl)
      rw [hfacts.2]
      have hitem : fb[i]? = texts[i]? := by
        rw [hfb]
        unfold fallbackToIndividualTranslations
        exact fallbackGo_failed_item ao maxR base texts 0 i (by simpa using hfail)
      rw [hitem, htexts, List.getElem?_map]
    · have hif : i < fb.length := by rw [hfbl]; exact hi
      have hfacts := zipWith_tr_facts lang fb strings i hif (le_of_eq hfbl)
      rw [hfacts.1]
  · intro providers provider strings langs lang name e hfind hne hmem hbatch
    obtain ⟨res, hres, hentry⟩ :=
      translateStrings_lang_entry providers provider strings langs lang name hfind hne hmem
    have htl : translateLanguage provider strings (strings.map ExtractedString.text)
        (strings.map ExtractedString.context) lang = fallbackAllOriginal strings lang := by
      unfold translateLanguage
      rw [hbatch]
    refine ⟨res, hres, by rw [hentry, htl], ?_, ?_⟩
    · exact List.length_map _ _
    · intro j
      unfold fallbackAllOriginal
      rw [List.getElem?_map, Option.map_map]
      rfl

/-- Witness for C2 at a concrete input: one extracted string, a failing
batch request and an always-failing per-item oracle still yield a
single-entry result list for the requested language. -/
theorem translateStrings_fallback_degrade_witness :
    ((translateStrings [openAIProvider (.error demoError) (fun _ _ => .error demoError) 3 1000]
        [demoScanString] [strL "fr"] openAIName).map
      (fun res => (mapGet res (strL "fr")).map List.length)) = .ok (some 1) := by
  obtain ⟨res, rs, h1, h2, h3, _, _⟩ := translateStrings_fallback_degrade.1 demoError
    (fun _ _ => .error demoError) 3 1000 [demoScanString] [strL "fr"] (strL "fr") 0
    (by simp) (by simp) (by simp) (fun a => ⟨demoError, rfl⟩)
  rw [h1]
  simp only [Except.map]
  rw [h2]
  simp [h3]

/-! ### C1 — per-language result length -/

/-- C1 (amended): with a registered provider and a non-empty input of N
strings, every requested language receives an entry; that entry equals the
full-length all-original fallback whenever the batch call throws, and also
when the batch call returns more pieces than N (the out-of-range index
access throws and is caught); when the batch call returns M ≤ N pieces the
entry pairs the pieces with the first M inputs, so it has length M — which
is smaller than N when the response mis-splits (see the counterexample) —
with `originalText` still matching the input at each position. -/
theorem translateStrings_length_contract
    (providers : List Provider) (provider : Provider) (strings : List ExtractedString)
    (langs : List (List Char)) (lang name : List Char)
    (hfind : findProvider providers name = some provider)
    (hne : strings ≠ []) (hmem : lang ∈ langs) :
    ∃ res rs, translateStrings providers strings langs name = .ok res ∧
      mapGet res lang = some rs ∧
      (∀ e, provider.translateBatch (strings.map ExtractedString.text) lang
          (strings.map ExtractedString.context) = .error e →
        rs = fallbackAllOriginal strings lang) ∧
      (∀ ts, provider.translateBatch (strings.map ExtractedString.text) lang
          (strings.map ExtractedString.context) = .ok ts →
        (ts.length ≤ strings.length →
          rs.length = ts.length ∧
          (∀ i : Nat, i < ts.length →
            rs[i]?.map TranslationResult.originalText = strings[i]?.map ExtractedString.text ∧
            rs[i]?.map TranslationResult.translatedText = ts[i]?)) ∧
        (strings.length < ts.length → rs = fallbackAllOriginal strings lang)) ∧
      (fallbackAllOriginal strings lang).length = strings.length ∧
      (∀ j : Nat, (fallbackAllOriginal strings lang)[j]?.map TranslationResult.originalText =
        strings[j]?.map ExtractedString.text) := by
  obtain ⟨res, hres, hentry⟩ :=
    translateStrings_lang_entry providers provider strings langs lang name hfind hne hmem
  refine ⟨res, _, hres, hentry, ?_, ?_, List.length_map _ _, ?_⟩
  · intro e hbatch
    unfold translateLanguage
    rw [hbatch]
  · intro ts hbatch
    constructor
    · intro hle
      have hzip := buildLangResults_eq_zipWith lang ts strings hle
      have htl : translateLanguage provider strings (strings.map ExtractedString.text)
          (strings.map ExtractedString.context) lang =
          List.zipWith (fun tr s => (⟨s.text, tr, lang, s.context⟩ : TranslationResult))
            ts strings := by
        unfold translateLanguage
        rw [hbatch]
        dsimp only
        rw [hzip]
      rw [htl]
      refine ⟨by rw [List.length_zipWith]; omega, ?_⟩
      intro i hi
      exact zipWith_tr_facts lang ts strings i hi hle
    · intro hgt
      obtain ⟨e, he⟩ := buildLangResults_overflow lang ts strings hgt
      unfold translateLanguage
      rw [hbatch]
      dsimp only
      rw [he]
  · intro j
    unfold fallbackAllOriginal
    rw [List.getElem?_map, Option.map_map]
    rfl

/-- Witness for C1 (amended) at a concrete input: a provider whose batch
call throws degrades the language entry to the full-length (here 2)
all-original result set. -/
theorem translateStrings_length_contract_witness :
    ((translateStrings [demoProvider] [cexStringA, cexStringB] [strL "fr"] openAIName).map
      (fun res => (mapGet res (strL "fr")).map List.length)) = .ok (some 2) := by
  obtain ⟨res, rs, h1, h2, herr, _, hfb, _⟩ := translateStrings_length_contract
    [demoProvider] demoProvider [cexStringA, cexStringB] [strL "fr"] (strL "fr") openAIName
    rfl (by simp) (by simp)
  have hrs : rs = fallbackAllOriginal [cexStringA, cexStringB] (strL "fr") := herr demoError rfl
  rw [h1]
  simp only [Except.map]
  rw [h2]
  simp [hrs, hfb]

/-- C1 counterexample: two input strings, an OpenAI batch response without a
separator — the language's result sequence has length 1, not N = 2, refuting
the claimed invariant for the mis-split outcome. -/
theorem translateStrings_short_split_cex :
    ((translateStrings [shortSplitProvider] [cexStringA, cexStringB] [strL "fr"] openAIName).map
      (fun res => (mapGet res (strL "fr")).map List.length)) = .ok (some 1) ∧
    [cexStringA, cexStringB].length = 2 ∧ (1 : Nat) ≠ 2 := by
  refine ⟨rfl, rfl, by decide⟩

/-! ### C8 — provider error handling on single-item translate -/

/-- C8 (amended): for both providers a non-OK HTTP response raises a
provider-tagged error whose wrapped original error carries the numeric
status code. An OK response lacking the expected structure makes the OpenAI
provider return the original text; the DeepL provider returns the original
text when the `translations` array is present but empty or without a usable
`text`, but an OK DeepL body missing the `translations` array entirely
raises a provider-tagged error (undefined property access) instead of
degrading (see the counterexample). -/
theorem makeHTTPRequest_ok_true {β : Type} (name : List Char) (resp : HTTPResponse β)
    (h : resp.ok = true) : makeHTTPRequest name (.ok resp) = .ok resp.body := by
  simp [makeHTTPRequest, h]

theorem makeHTTPRequest_ok_false {β : Type} (name : List Char) (resp : HTTPResponse β)
    (h : resp.ok = false) :
    makeHTTPRequest name (.ok resp) = .error (.apiError
      (strL "HTTP " ++ Nat.toDigits 10 resp.status ++ strL ": " ++ resp.statusText)
      name (some resp.status) none) := by
  simp [makeHTTPRequest, h]

theorem provider_translate_error_contract :
    (∀ (resp : HTTPResponse OpenAIBody) (text : List Char), resp.ok = false →
      ∃ err, openAITranslate (.ok resp) text = .error err ∧
        errProvider err = some openAIName ∧ statusInChain err = some resp.status) ∧
    (∀ (resp : HTTPResponse DeepLBody) (text : List Char), resp.ok = false →
      ∃ err, deepLTranslate (.ok resp) text = .error err ∧
        errProvider err = some deepLName ∧ statusInChain err = some resp.status) ∧
    (∀ (resp : HTTPResponse OpenAIBody) (text : List Char), resp.ok = true →
      extractTranslationFromResponse resp.body = none →
      openAITranslate (.ok resp) text = .ok text) ∧
    (∀ (resp : HTTPResponse OpenAIBody) (text : List Char), resp.ok = true →
      extractTranslationFromResponse resp.body = some [] →
      openAITranslate (.ok resp) text = .ok text) ∧
    (∀ (resp : HTTPResponse DeepLBody) (items : List DeepLItem) (text : List Char),
      resp.ok = true → resp.body.translations = some items →
      (items.head?.bind DeepLItem.text).getD [] = [] →
      deepLTranslate (.ok resp) text = .ok text) ∧
    (∀ (resp : HTTPResponse DeepLBody) (text : List Char), resp.ok = true →
      resp.body.translations = none →
      ∃ err, deepLTranslate (.ok resp) text = .error err ∧
        errProvider err = some deepLName) := by
  refine ⟨?_, ?_, ?_, ?_, ?_, ?_⟩
  · intro resp text hok
    have he : openAITranslate (.ok resp) text = .error (.translationError
        (strL "Translation failed: " ++ errMessage (.apiError
          (strL "HTTP " ++ Nat.toDigits 10 resp.status ++ strL ": " ++ resp.statusText)
          openAIName (some resp.status) none))
        openAIName
        (some (.apiError
          (strL "HTTP " ++ Nat.toDigits 10 resp.status ++ strL ": " ++ resp.statusText)
          openAIName (some resp.status) none))) := by
      unfold openAITranslate
      rw [makeHTTPRequest_ok_false openAIName resp hok]
    exact ⟨_, he, rfl, by simp [statusInChain]⟩
  · intro resp text hok
    have he : deepLTranslate (.ok resp) text = .error (.translationError
        (strL "Translation failed: " ++ errMessage (.apiError
          (strL "HTTP " ++ Nat.toDigits 10 resp.status ++ strL ": " ++ resp.statusText)
          deepLName (some resp.status) none))
        deepLName
        (some (.apiError
          (strL "HTTP " ++ Nat.toDigits 10 resp.status ++ strL ": " ++ resp.statusText)
          deepLName (some resp.status) none))) := by
      unfold deepLTranslate
      rw [makeHTTPRequest_ok_false deepLName resp hok]
    exact ⟨_, he, rfl, by simp [statusInChain]⟩
  · intro resp text hok hext
    unfold openAITranslate
    rw [makeHTTPRequest_ok_true openAIName resp hok]
    dsimp only
    rw [hext]
    rfl
  · intro resp text hok hext
    unfold openAITranslate
    rw [makeHTTPRequest_ok_true openAIName resp hok]
    dsimp only
    rw [hext]
    rfl
  · intro resp items text hok hitems hblank
    unfold deepLTranslate
    rw [makeHTTPRequest_ok_true deepLName resp hok]
    dsimp only
    rw [hitems]
    dsimp only
    rcases hh : items.head?.bind DeepLItem.text with _ | s
    · rfl
    · rw [hh] at hblank
      simp at hblank
      simp [jsOrStr, hblank]
  · intro resp text hok hnone
    have he : deepLTranslate (.ok resp) text = .error (.translationError
        (strL "Translation failed: " ++ undefinedReadMessage) deepLName
        (some (.typeError undefinedReadMessage))) := by
      unfold deepLTranslate
      rw [makeHTTPRequest_ok_true deepLName resp hok]
      dsimp only
      rw [hnone]
    exact ⟨_, he, rfl⟩

/-- Witness for C8 at concrete responses: a 500 for OpenAI and a 403 for
DeepL raise; an OK OpenAI body without choices and an OK DeepL body with an
empty translations array both return the original text. -/
theorem provider_translate_error_contract_witness :
    isErrorResult (openAITranslate
      (.ok ⟨false, 500, strL "Internal Server Error", ⟨none⟩⟩) (strL "hi")) = true ∧
    isErrorResult (deepLTranslate
      (.ok ⟨false, 403, strL "Forbidden", ⟨none⟩⟩) (strL "hi")) = true ∧
    openAITranslate (.ok ⟨true, 200, strL "OK", ⟨none⟩⟩) (strL "hi") = .ok (strL "hi") ∧
    deepLTranslate (.ok ⟨true, 200, strL "OK", ⟨some []⟩⟩) (strL "hi") = .ok (strL "hi") := by
  obtain ⟨h1, h2, h3, _, h5, _⟩ := provider_translate_error_contract
  refine ⟨?_, ?_, ?_, ?_⟩
  · obtain ⟨err, he, _, _⟩ :=
      h1 ⟨false, 500, strL "Internal Server Error", ⟨none⟩⟩ (strL "hi") rfl
    rw [he]
    rfl
  · obtain ⟨err, he, _, _⟩ := h2 ⟨false, 403, strL "Forbidden", ⟨none⟩⟩ (strL "hi") rfl
    rw [he]
    rfl
  · exact h3 ⟨true, 200, strL "OK", ⟨none⟩⟩ (strL "hi") rfl rfl
  · exact h5 ⟨true, 200, strL "OK", ⟨some []⟩⟩ [] (strL "hi") rfl rfl rfl

/-- C8 counterexample: an OK DeepL response whose body has no `translations`
field raises (the provider does not return the original text), refuting the
claim for this malformed-body case. -/
theorem deepLTranslate_missing_translations_cex :
    isErrorResult (deepLTranslate (.ok ⟨true, 200, strL "OK", ⟨none⟩⟩) (strL "hello")) = true ∧
    (⟨true, 200, strL "OK", (⟨none⟩ : DeepLBody)⟩ : HTTPResponse DeepLBody).ok = true := by
  exact ⟨rfl, rfl⟩

/-! ### C3 — JSX / bare-literal mutual exclusivity in the extractor -/

theorem append_nil_ne_cons (p : List Nat) (x : Nat) (r : List Nat) : p ≠ p ++ (x :: r) := by
  intro h
  have := congrArg List.length h
  simp at this

theorem isInJSX_cons (m : Node) (anc : List Node) (h : isInJSX anc = true) :
    isInJSX (m :: anc) = true := by
  rw [isInJSX, h]
  simp

theorem isInJSX_cons_jsx (m : Node) (anc : List Node)
    (h : isJSXElementOrFragment m.kind = true) : isInJSX (m :: anc) = true := by
  rw [isInJSX, if_pos h]

/-- Which entries each visitor can push when entering a node: an own-origin
entry (JSX text, or a bare literal when the ancestor chain has no JSX
element/fragment) or a child-origin `jsx_attribute` entry from the
expression-container visitor. -/
theorem visitHere_mem (anc : List Node) (p : List Nat) (n : Node) (e : TaggedString)
    (h : e ∈ visitHere anc p n) :
    (e.origin = p ∧
      ((e.str.type = .jsx_text ∧ n.kind = .jsxText) ∨
        ((e.str.type = .string_literal ∨ e.str.type = .template_literal) ∧
          (n.kind = .stringLiteral ∨ n.kind = .templateLiteral) ∧ isInJSX anc = false))) ∨
    (e.origin = p ++ [0] ∧ e.str.type = .jsx_attribute) := by
  obtain ⟨k, v, nm, qs, l, cs⟩ := n
  cases k <;>
    simp only [visitHere, Node.kind, Node.value, Node.quasis, Node.loc, Node.children] at h
  case jsxText =>
    by_cases hs : shouldExtract (jsTrim v) = true
    · rw [if_pos hs] at h
      simp at h
      subst h
      exact Or.inl ⟨rfl, Or.inl ⟨rfl, rfl⟩⟩
    · rw [if_neg hs] at h
      exact absurd h (List.not_mem_nil e)
  case jsxExpressionContainer =>
    rcases cs with _ | ⟨c0, cs'⟩ <;> simp only [NodeList.head?] at h
    · exact absurd h (List.not_mem_nil e)
    · obtain ⟨ck, cv, cnm, cqs, cl, ccs⟩ := c0
      dsimp only at h
      by_cases hk : (ck == NodeKind.stringLiteral) = true
      · rw [if_pos hk] at h
        by_cases hs : shouldExtract cv = true
        · rw [if_pos hs] at h
          simp at h
          subst h
          exact Or.inr ⟨rfl, rfl⟩
        · rw [if_neg hs] at h
          exact absurd h (List.not_mem_nil e)
      · rw [if_neg hk] at h
        exact absurd h (List.not_mem_nil e)
  case stringLiteral =>
    by_cases hj : isInJSX anc = true
    · rw [if_pos hj] at h
      exact absurd h (List.not_mem_nil e)
    · rw [if_neg hj] at h
      by_cases hs : shouldExtract v = true
      · rw [if_pos hs] at h
        simp at h
        subst h
        exact Or.inl ⟨rfl, Or.inr ⟨Or.inl rfl, Or.inl rfl, by simpa using hj⟩⟩
      · rw [if_neg hs] at h
        exact absurd h (List.not_mem_nil e)
  case templateLiteral =>
    by_cases hj : isInJSX anc = true
    · rw [if_pos hj] at h
      exact absurd h (List.not_mem_nil e)
    · rw [if_neg hj] at h
      by_cases hs : shouldExtract (reconstructTemplateGo qs cs) = true
      · rw [if_pos hs] at h
        simp at h
        subst h
        exact Or.inl ⟨rfl, Or.inr ⟨Or.inr rfl, Or.inr rfl, by simpa using hj⟩⟩
      · rw [if_neg hs] at h
        exact absurd h (List.not_mem_nil e)
  all_goals exact absurd h (List.not_mem_nil e)

/-- Every entry contributed by the child scan comes from some child. -/
theorem extractChildren_mem : ∀ (ns : NodeList) (anc : List Node) (p : List Nat) (i0 : Nat)
    (e : TaggedString), e ∈ extractChildren anc p i0 ns →
    ∃ j c, ns.get? j = some c ∧ e ∈ extractNode anc (p ++ [i0 + j]) c
  | .nil, anc, p, i0, e => by
    intro h
    simp [extractChildren] at h
  | .cons c cs, anc, p, i0, e => by
    intro h
    rw [extractChildren] at h
    rcases List.mem_append.mp h with h | h
    · exact ⟨0, c, rfl, by simpa using h⟩
    · obtain ⟨j, c', hg, hm⟩ := extractChildren_mem cs anc p (i0 + 1) e h
      refine ⟨j + 1, c', hg, ?_⟩
      rw [show i0 + (j + 1) = i0 + 1 + j from by omega]
      exact hm

mutual
/-- Every entry of a subtree rooted at path `p` has an origin extending
`p`. -/
theorem extract_origin : ∀ (n : Node) (anc : List Node) (p : List Nat) (e : TaggedString),
    e ∈ extractNode anc p n → ∃ r, e.origin = p ++ r
  | .mk k v nm qs l cs, anc, p, e => by
    intro h
    rw [extractNode] at h
    rcases List.mem_append.mp h with h | h
    · rcases visitHere_mem anc p _ e h with ⟨ho, _⟩ | ⟨ho, _⟩
      · exact ⟨[], by simpa using ho⟩
      · exact ⟨[0], ho⟩
    · obtain ⟨j, r, hr⟩ := extractChildren_origin cs ((Node.mk k v nm qs l cs) :: anc) p 0 e h
      exact ⟨(0 + j) :: r, hr⟩

theorem extractChildren_origin : ∀ (ns : NodeList) (anc : List Node) (p : List Nat) (i0 : Nat)
    (e : TaggedString), e ∈ extractChildren anc p i0 ns →
    ∃ j r, e.origin = p ++ ((i0 + j) :: r)
  | .nil, anc, p, i0, e => by
    intro h
    simp [extractChildren] at h
  | .cons c cs, anc, p, i0, e => by
    intro h
    rw [extractChildren] at h
    rcases List.mem_append.mp h with h | h
    · obtain ⟨r, hr⟩ := extract_origin c anc (p ++ [i0]) e h
      exact ⟨0, r, by rw [hr]; simp⟩
    · obtain ⟨j, r, hr⟩ := extractChildren_origin cs anc p (i0 + 1) e h
      refine ⟨j + 1, r, ?_⟩
      rw [hr]
      congr 2
      omega
end

/-- Any entry whose origin lies at a path whose ancestor chain contains a
JSX element or fragment (or whose whole subtree already sits inside JSX) is
of kind `jsx_text` or `jsx_attribute`. -/
theorem extract_jsx_ancestor_types :
    ∀ (q : List Nat) (n : Node) (anc : List Node) (p : List Nat) (e : TaggedString),
      (isInJSX anc || containsJSX (ancKindsAt n q)) = true →
      e ∈ extractNode anc p n → e.origin = p ++ q →
      e.str.type = .jsx_text ∨ e.str.type = .jsx_attribute := by
  intro q
  induction q with
  | nil =>
    intro n anc p e hjsx h ho
    have hj : isInJSX anc = true := by
      rcases n with ⟨k, v, nm, qs, l, cs⟩
      simpa [ancKindsAt, containsJSX] using hjsx
    obtain ⟨k, v, nm, qs, l, cs⟩ := n
    rw [extractNode] at h
    rcases List.mem_append.mp h with h | h
    · rcases visitHere_mem anc p _ e h with ⟨_, htypes⟩ | ⟨ho2, _⟩
      · rcases htypes with ⟨ht, _⟩ | ⟨_, _, hnj⟩
        · exact Or.inl ht
        · rw [hj] at hnj
          cases hnj
      · rw [ho2] at ho
        have := List.append_cancel_left ho.symm
        simp at this
    · obtain ⟨j, r, hr⟩ := extractChildren_origin cs _ p 0 e h
      rw [hr] at ho
      have := List.append_cancel_left ho
      simp at this
  | cons i q' ih =>
    intro n anc p e hjsx h ho
    obtain ⟨k, v, nm, qs, l, cs⟩ := n
    rw [extractNode] at h
    rcases List.mem_append.mp h with h | h
    · rcases visitHere_mem anc p _ e h with ⟨ho2, _⟩ | ⟨ho2, htype⟩
      · rw [ho2] at ho
        exact absurd ho (append_nil_ne_cons p i q')
      · exact Or.inr htype
    · obtain ⟨j, c, hg, hm⟩ := extractChildren_mem cs _ p 0 e h
      obtain ⟨r, hr⟩ := extract_origin c _ _ e hm
      rw [show (0 + j : Nat) = j from by omega] at hm hr
      rw [hr] at ho
      have ho2 := ho
      rw [List.append_assoc, List.singleton_append] at ho2
      have heq := List.append_cancel_left ho2
      injection heq with h1 h2
      subst h1
      subst h2
      refine ih c ((Node.mk k v nm qs l cs) :: anc) (p ++ [j]) e ?_ hm hr
      rw [ancKindsAt] at hjsx
      rw [hg] at hjsx
      simp only [containsJSX, List.any_cons, Bool.or_eq_true] at hjsx ⊢
      rcases hjsx with hjsx | hjsx | hjsx
      · exact Or.inl (isInJSX_cons _ _ hjsx)
      · exact Or.inl (isInJSX_cons_jsx _ _ (by simpa using hjsx))
      · exact Or.inr hjsx

theorem isInJSX_cons_not (m : Node) (anc : List Node)
    (h : isJSXElementOrFragment m.kind = false) : isInJSX (m :: anc) = isInJSX anc := by
  rw [isInJSX, if_neg (by simp [h])]

theorem entriesAt_append (a b : List TaggedString) (t : List Nat) :
    entriesAt (a ++ b) t = entriesAt a t ++ entriesAt b t := List.filter_append a b

theorem entriesAt_nil_of (l : List TaggedString) (t : List Nat)
    (h : ∀ e ∈ l, e.origin ≠ t) : entriesAt l t = [] := by
  apply List.filter_eq_nil_iff.mpr
  intro e he
  simpa using h e he

theorem entriesAt_singleton (e : TaggedString) (t : List Nat) (h : e.origin = t) :
    entriesAt [e] t = [e] := by
  simp [entriesAt, List.filter, h]

/-- An entry of a subtree whose origin is the subtree's own root path was
pushed by the root's own visitors. -/
theorem extract_own_origin (n : Node) (anc : List Node) (p : List Nat) (e : TaggedString)
    (h : e ∈ extractNode anc p n) (ho : e.origin = p) : e ∈ visitHere anc p n := by
  obtain ⟨k, v, nm, qs, l, cs⟩ := n
  rw [extractNode] at h
  rcases List.mem_append.mp h with h | h
  · exact h
  · obtain ⟨j, r, hr⟩ := extractChildren_origin cs _ p 0 e h
    rw [ho] at hr
    exact absurd hr (append_nil_ne_cons p _ r)

/-- Entries of the child scan at a target inside child `j` all come from
child `j`. -/
theorem entriesAt_children : ∀ (ns : NodeList) (anc : List Node) (p : List Nat) (i0 j : Nat)
    (c : Node) (s : List Nat), ns.get? j = some c →
    entriesAt (extractChildren anc p i0 ns) (p ++ ((i0 + j) :: s)) =
      entriesAt (extractNode anc (p ++ [i0 + j]) c) (p ++ ((i0 + j) :: s))
  | .nil, anc, p, i0, j, c, s => by
    intro hg
    simp [NodeList.get?] at hg
  | .cons c0 cs, anc, p, i0, j, c, s => by
    intro hg
    rw [extractChildren, entriesAt_append]
    cases j with
    | zero =>
      simp only [NodeList.get?] at hg
      injection hg with hg
      subst hg
      have h2 : entriesAt (extractChildren anc p (i0 + 1) cs) (p ++ ((i0 + 0) :: s)) = [] := by
        apply entriesAt_nil_of
        intro e he
        obtain ⟨j', r', hr'⟩ := extractChildren_origin cs anc p (i0 + 1) e he
        rw [hr']
        intro hcontra
        have := List.append_cancel_left hcontra
        injection this with hh _
        omega
      rw [h2, List.append_nil]
      simp only [Nat.add_zero]
    | succ j' =>
      simp only [NodeList.get?] at hg
      have h1 : entriesAt (extractNode anc (p ++ [i0]) c0) (p ++ ((i0 + (j' + 1)) :: s)) = [] := by
        apply entriesAt_nil_of
        intro e he
        obtain ⟨r', hr'⟩ := extract_origin c0 anc (p ++ [i0]) e he
        rw [hr']
        intro hcontra
        rw [List.append_assoc, List.singleton_append] at hcontra
        have := List.append_cancel_left hcontra
        injection this with hh _
        omega
      rw [h1, List.nil_append]
      have hrec := entriesAt_children cs anc p (i0 + 1) j' c s hg
      rw [show i0 + 1 + j' = i0 + (j' + 1) from by omega] at hrec
      exact hrec

/-- A string literal held by a JSX expression container that sits inside a
JSX element is reported exactly once, by the container visitor, tagged
`jsx_attribute`. -/
theorem extract_attr_once :
    ∀ (q0 : List Nat) (n : Node) (anc : List Node) (p : List Nat) (contNode lit : Node),
      nodeAt n q0 = some contNode →
      contNode.kind = .jsxExpressionContainer →
      contNode.children.head? = some lit →
      lit.kind = .stringLiteral →
      shouldExtract lit.value = true →
      (isInJSX anc || containsJSX (ancKindsAt n q0)) = true →
      ∃ e, entriesAt (extractNode anc p n) (p ++ q0 ++ [0]) = [e] ∧
        e.str.type = .jsx_attribute ∧ e.str.text = lit.value := by
  intro q0
  induction q0 with
  | nil =>
    intro n anc p contNode lit hnode hck hhead hlk hse hjsx
    have hn : n = contNode := by
      rw [nodeAt] at hnode
      exact (Option.some.injEq _ _).mp hnode
    subst hn
    have hj : isInJSX anc = true := by
      rcases n with ⟨k, v, nm, qs, l, cs⟩
      simpa [ancKindsAt, containsJSX] using hjsx
    obtain ⟨k, v, nm, qs, l, cs⟩ := n
    have hkk : k = NodeKind.jsxExpressionContainer := hck
    subst hkk
    rcases cs with _ | ⟨lit0, cs'⟩
    · simp [Node.children, NodeList.head?] at hhead
    · have hlit : lit0 = lit := by
        simpa [Node.children, NodeList.head?] using hhead
      subst hlit
      obtain ⟨lk, lv, lnm, lqs, ll, lcs⟩ := lit0
      have hlkk : lk = NodeKind.stringLiteral := hlk
      subst hlkk
      have hv : visitHere anc p (Node.mk .jsxExpressionContainer v nm qs l
          (.cons (Node.mk .stringLiteral lv lnm lqs ll lcs) cs')) =
          [⟨⟨lv, locLine l, locColumn l, getJSXAttributeContext anc, .jsx_attribute⟩,
            p ++ [0]⟩] := by
        simp only [visitHere, Node.kind, Node.children, NodeList.head?, Node.value]
        have hse' : shouldExtract lv = true := hse
        rw [if_pos (show (NodeKind.stringLiteral == NodeKind.stringLiteral) = true from rfl),
          if_pos hse']
        rfl
      rw [extractNode, entriesAt_append, hv]
      have htarget : p ++ ([] : List Nat) ++ [0] = p ++ [0] := by simp
      rw [htarget]
      have h2 : entriesAt (extractChildren
          ((Node.mk .jsxExpressionContainer v nm qs l
            (.cons (Node.mk .stringLiteral lv lnm lqs ll lcs) cs')) :: anc) p 0
          (.cons (Node.mk .stringLiteral lv lnm lqs ll lcs) cs')) (p ++ [0]) = [] := by
        apply entriesAt_nil_of
        intro e he
        obtain ⟨j, c, hg, hm⟩ := extractChildren_mem _ _ p 0 e he
        obtain ⟨r, hr⟩ := extract_origin c _ _ e hm
        rw [hr]
        intro hcontra
        rw [List.append_assoc, List.singleton_append] at hcontra
        have hinj := List.append_cancel_left hcontra
        injection hinj with hh1 hh2
        have hj0 : j = 0 := by omega
        subst hj0
        subst hh2
        simp only [NodeList.get?] at hg
        injection hg with hg
        subst hg
        have hown := extract_own_origin _ _ _ e hm (by rw [hr]; simp)
        rcases visitHere_mem _ _ _ e hown with ⟨_, htypes⟩ | ⟨ho2, _⟩
        · rcases htypes with ⟨_, hkind⟩ | ⟨_, _, hnj⟩
          · exact absurd hkind (by simp [Node.kind])
          · rw [isInJSX_cons_not _ _ (by simp [Node.kind, isJSXElementOrFragment]), hj] at hnj
            cases hnj
        · rw [hr] at ho2
          have := List.append_cancel_left ho2
          simp at this
      rw [h2, List.append_nil]
      refine ⟨_, entriesAt_singleton _ _ rfl, rfl, rfl⟩
  | cons i q' ih =>
    intro n anc p contNode lit hnode hck hhead hlk hse hjsx
    obtain ⟨k, v, nm, qs, l, cs⟩ := n
    rw [nodeAt] at hnode
    rcases hg : cs.get? i with _ | c
    · rw [hg] at hnode
      cases hnode
    · rw [hg] at hnode
      dsimp only at hnode
      have htarget : p ++ (i :: q') ++ [0] = p ++ ((0 + i) :: (q' ++ [0])) := by
        simp [List.append_assoc]
      rw [extractNode, entriesAt_append, htarget]
      have h1 : entriesAt (visitHere anc p (Node.mk k v nm qs l cs))
          (p ++ ((0 + i) :: (q' ++ [0]))) = [] := by
        apply entriesAt_nil_of
        intro e he
        rcases visitHere_mem _ _ _ e he with ⟨ho2, _⟩ | ⟨ho2, _⟩
        · rw [ho2]
          exact append_nil_ne_cons p _ _
        · rw [ho2]
          intro hcontra
          have := List.append_cancel_left hcontra
          injection this with _ hh2
          exact absurd hh2.symm (List.append_ne_nil_of_right_ne_nil q' (by simp))
      rw [h1, List.nil_append]
      rw [entriesAt_children cs _ p 0 i c (q' ++ [0]) hg]
      have hstep : (p ++ [0 + i]) ++ q' ++ [0] = p ++ ((0 + i) :: (q' ++ [0])) := by
        simp [List.append_assoc]
      rw [← hstep]
      apply ih c _ (p ++ [0 + i]) contNode lit hnode hck hhead hlk hse
      rw [ancKindsAt] at hjsx
      rw [hg] at hjsx
      simp only [containsJSX, List.any_cons, Bool.or_eq_true] at hjsx ⊢
      rcases hjsx with hjsx | hjsx | hjsx
      · exact Or.inl (isInJSX_cons _ _ hjsx)
      · exact Or.inl (isInJSX_cons_jsx _ _ (by simpa using hjsx))
      · exact Or.inr hjsx

/-- C3 (amended): (a) an extraction entry reporting an occurrence whose
ancestor chain contains a JSX element or fragment is never of kind
`string_literal` or `template_literal` — only the JSX-text or JSX-attribute
strategies fire there; (b) a string literal held by a JSX *expression
container* is reported exactly once, tagged `jsx_attribute`. A string
literal that is a *bare* JSX attribute value (no expression container) is,
however, not reported at all (see the counterexample), so "a string literal
appearing inside a JSX attribute is reported exactly once" holds only for
container-wrapped values. -/
theorem reactParser_jsx_exclusivity :
    (∀ (root : Node) (q : List Nat) (m : Node) (e : TaggedString),
      nodeAt root q = some m →
      containsJSX (ancKindsAt root q) = true →
      e ∈ extractFile root → e.origin = q →
      e.str.type = .jsx_text ∨ e.str.type = .jsx_attribute) ∧
    (∀ (root : Node) (q0 : List Nat) (contNode lit : Node),
      nodeAt root q0 = some contNode →
      contNode.kind = .jsxExpressionContainer →
      contNode.children.head? = some lit →
      lit.kind = .stringLiteral →
      shouldExtract lit.value = true →
      containsJSX (ancKindsAt root q0) = true →
      ∃ e, entriesAt (extractFile root) (q0 ++ [0]) = [e] ∧
        e.str.type = .jsx_attribute ∧ e.str.text = lit.value) := by
  constructor
  · intro root q m e _ hjsx hmem ho
    exact extract_jsx_ancestor_types q root [] [] e (by simpa [isInJSX] using hjsx) hmem
      (by simpa using ho)
  · intro root q0 contNode lit hnode hck hhead hlk hse hjsx
    have hmain := extract_attr_once q0 root [] [] contNode lit hnode hck hhead hlk hse
      (by simpa [isInJSX] using hjsx)
    simpa [extractFile] using hmain

/-- Witness for C3 (amended) on the parsed tree of
`<Button label={"Confirmer maintenant"} />`: the container-held literal is
reported exactly once, and the single entry is of a JSX kind. -/
theorem reactParser_jsx_exclusivity_witness :
    (entriesAt (extractFile containerTree) [0, 0, 0, 0]).length = 1 ∧
    (demoAttrEntry.str.type = .jsx_text ∨ demoAttrEntry.str.type = .jsx_attribute) := by
  constructor
  · obtain ⟨e, he, _, _⟩ := reactParser_jsx_exclusivity.2 containerTree [0, 0, 0]
      attrContainer attrLit rfl rfl rfl rfl (by decide) rfl
    rw [show ([0, 0, 0, 0] : List Nat) = [0, 0, 0] ++ [0] from rfl, he]
    rfl
  · exact reactParser_jsx_exclusivity.1 containerTree [0, 0, 0, 0] attrLit demoAttrEntry rfl rfl
      (by rw [show extractFile containerTree = [demoAttrEntry] from rfl]
          exact List.mem_singleton.mpr rfl) rfl

/-- C3 counterexample: in `<Button label="Confirmer maintenant" />` the
attribute value is a bare string literal inside a JSX attribute, its text
passes the classifier, yet the parser reports it zero times — not "exactly
once, tagged jsx_attribute" as claimed (the whole file extracts nothing). -/
theorem reactParser_bare_attribute_cex :
    extractFile bareAttrTree = [] ∧
    nodeAt bareAttrTree [0, 0, 0] = some bareAttrLit ∧
    bareAttrLit.kind = .stringLiteral ∧
    containsJSX (ancKindsAt bareAttrTree [0, 0, 0]) = true ∧
    shouldExtract (strL "Confirmer maintenant") = true ∧
    entriesAt (extractFile bareAttrTree) [0, 0, 0] = [] := by
  exact ⟨rfl, rfl, rfl, rfl, by decide, rfl⟩

end I18nAi
